import Mathlib

/-!
Shallow embedding of the `open-sponsor` directory analyzer, a Node.js CLI
that scores locally registered project directories and their dependencies.

Modelling conventions:
* JavaScript numbers are modelled as exact rationals, extended with NaN
  (`JNum`) where an object-to-number coercion can occur.
* JS objects keyed by strings (and JS `Map`/`Set`) are modelled as
  insertion-ordered association lists, matching JS enumeration order for
  string keys.
* `Array.prototype.sort` is modelled as a stable comparison sort
  (`jsSortBy`), with a comparator result of NaN treated as 0, as the
  ECMAScript specification prescribes.
* File-system reads are modelled by data carried in a `Dir` value; a read
  that would throw is an `Except.error`.
-/

/-- JS number fragment: exact rational or NaN. -/
inductive JNum where
  | nan
  | num (q : ℚ)
deriving DecidableEq

def jadd : JNum → JNum → JNum
  | .num a, .num b => .num (a + b)
  | _, _ => .nan

def jsub : JNum → JNum → JNum
  | .num a, .num b => .num (a - b)
  | _, _ => .nan

def jmin : JNum → JNum → JNum
  | .num a, .num b => .num (min a b)
  | _, _ => .nan

/-- Truth of `c <= 0` for a sort-comparator result, a NaN result being
treated as 0 (as `Array.prototype.sort` does). -/
def jleZero : JNum → Bool
  | .nan => true
  | .num q => decide (q ≤ 0)

/-- JS `>=` on numbers: every comparison involving NaN is false. -/
def jge : JNum → JNum → Bool
  | .num a, .num b => decide (b ≤ a)
  | _, _ => false

/-- Stable insertion into a sorted list: the new element goes after all
existing elements that compare less-or-equal to it. -/
def insertLe {α : Type} (le : α → α → Bool) (x : α) : List α → List α
  | [] => [x]
  | y :: ys => if le y x then y :: insertLe le x ys else x :: y :: ys

/-- Model of `Array.prototype.sort(comparator)`: a stable comparison sort.
`le a b` means the comparator applied to `(a, b)` returned a value `<= 0`
(so `a` may stay before `b`). -/
def jsSortBy {α : Type} (le : α → α → Bool) (l : List α) : List α :=
  l.foldl (fun acc x => insertLe le x acc) []

theorem insertLe_perm {α : Type} (le : α → α → Bool) (x : α) :
    ∀ l : List α, List.Perm (insertLe le x l) (x :: l)
  | [] => List.Perm.refl _
  | y :: ys => by
    by_cases h : le y x = true
    · simp only [insertLe, h, if_true]
      exact ((insertLe_perm le x ys).cons y).trans (List.Perm.swap x y ys)
    · simp only [insertLe, h, if_false, Bool.false_eq_true]
      exact List.Perm.refl _

theorem mem_insertLe {α : Type} (le : α → α → Bool) (x : α) (l : List α) (z : α) :
    z ∈ insertLe le x l ↔ z = x ∨ z ∈ l := by
  rw [(insertLe_perm le x l).mem_iff, List.mem_cons]

theorem foldl_insertLe_perm {α : Type} (le : α → α → Bool) :
    ∀ (l acc : List α),
      List.Perm (l.foldl (fun a x => insertLe le x a) acc) (acc ++ l)
  | [], acc => by simp
  | x :: xs, acc => by
    refine ((foldl_insertLe_perm le xs (insertLe le x acc)).trans ?_)
    refine (((insertLe_perm le x acc).append_right xs).trans ?_)
    exact List.perm_middle.symm.trans (List.Perm.refl _) |>.symm.symm

theorem jsSortBy_perm {α : Type} (le : α → α → Bool) (l : List α) :
    List.Perm (jsSortBy le l) l := by
  simpa using foldl_insertLe_perm le l []

theorem pairwise_insertLe {α : Type} (le : α → α → Bool) (P : α → Prop)
    (htot : ∀ a b, P a → P b → le a b = true ∨ le b a = true)
    (htr : ∀ a b c, P a → P b → P c → le a b = true → le b c = true → le a c = true)
    (x : α) (hx : P x) :
    ∀ l : List α, (∀ y ∈ l, P y) → l.Pairwise (fun a b => le a b = true) →
      (insertLe le x l).Pairwise (fun a b => le a b = true)
  | [], _, _ => List.pairwise_singleton _ x
  | y :: ys, hP, hpw => by
    have hPy : P y := hP y (List.mem_cons_self y ys)
    have hPys : ∀ z ∈ ys, P z := fun z hz => hP z (List.mem_cons_of_mem y hz)
    rcases List.pairwise_cons.mp hpw with ⟨hyz, hys⟩
    by_cases h : le y x = true
    · simp only [insertLe, h, if_true]
      refine List.pairwise_cons.mpr ⟨?_, ?_⟩
      · intro z hz
        rcases (mem_insertLe le x ys z).mp hz with rfl | hz
        · exact h
        · exact hyz z hz
      · exact pairwise_insertLe le P htot htr x hx ys hPys hys
    · simp only [insertLe, h, if_false, Bool.false_eq_true]
      have hxy : le x y = true := by
        rcases htot y x hPy hx with h1 | h1
        · exact absurd h1 h
        · exact h1
      refine List.pairwise_cons.mpr ⟨?_, hpw⟩
      intro z hz
      rcases List.mem_cons.mp hz with rfl | hz
      · exact hxy
      · rcases htot x z hx (hPys z hz) with h1 | h1
        · exact h1
        · exact absurd (htr y z x (hPy) (hPys z hz) hx (hyz z hz) h1) h

theorem foldl_insertLe_pairwise {α : Type} (le : α → α → Bool) (P : α → Prop)
    (htot : ∀ a b, P a → P b → le a b = true ∨ le b a = true)
    (htr : ∀ a b c, P a → P b → P c → le a b = true → le b c = true → le a c = true) :
    ∀ (l acc : List α), (∀ a ∈ l, P a) → (∀ a ∈ acc, P a) →
      acc.Pairwise (fun a b => le a b = true) →
      (l.foldl (fun a x => insertLe le x a) acc).Pairwise (fun a b => le a b = true)
  | [], _, _, _, hpw => hpw
  | x :: xs, acc, hl, hacc, hpw => by
    have hx : P x := hl x (List.mem_cons_self x xs)
    refine foldl_insertLe_pairwise le P htot htr xs (insertLe le x acc)
      (fun a ha => hl a (List.mem_cons_of_mem x ha)) ?_ ?_
    · intro a ha
      rcases (mem_insertLe le x acc a).mp ha with rfl | ha
      · exact hx
      · exact hacc a ha
    · exact pairwise_insertLe le P htot htr x hx acc hacc hpw

theorem jsSortBy_pairwise {α : Type} (le : α → α → Bool) (P : α → Prop)
    (htot : ∀ a b, P a → P b → le a b = true ∨ le b a = true)
    (htr : ∀ a b c, P a → P b → P c → le a b = true → le b c = true → le a c = true)
    (l : List α) (hl : ∀ a ∈ l, P a) :
    (jsSortBy le l).Pairwise (fun a b => le a b = true) :=
  foldl_insertLe_pairwise le P htot htr l [] hl (by intro a ha; cases ha) (List.Pairwise.nil)

/-! ## Textual matching

`lib/dependencyAnalyzer.js` counts usages of a dependency `dep` in a file by
matching the regexes

* `require\(['"](dep|dep\/.+)['"]\)`  (global flag), and
* `from\s+['"](dep|dep\/.+)['"]`      (global flag).

The matcher below implements ECMAScript matching semantics for exactly this
pattern family: left-to-right non-overlapping global scan, ordered
alternation, and greedy `.+` (one or more non-newline characters) with
backtracking.  The dependency name is matched literally; the source does not
escape regex metacharacters in `dep`, so names containing metacharacters
would behave differently — such names are outside this model. -/

def squote : Char := Char.ofNat 39

def dquoteChar : Char := Char.ofNat 34

def isQuote (c : Char) : Bool := c == squote || c == dquoteChar

/-- Characters not matched by `.` in a JS regex (line terminators). -/
def isNewlineChar (c : Char) : Bool := c == '\n' || c == '\r'

/-- Characters matched by `\s` that can occur in source text. -/
def isSpaceChar (c : Char) : Bool :=
  c == ' ' || c == '\t' || c == '\n' || c == '\r'

/-- Match a literal character sequence, returning the rest of the input. -/
def matchLit : List Char → List Char → Option (List Char)
  | [], cs => some cs
  | _ :: _, [] => none
  | l :: ls, c :: cs => if c == l then matchLit ls cs else none

/-- Greedy `.+` followed by `tailM`: consume one or more non-newline
characters, as many as possible such that `tailM` matches the remainder. -/
def greedyDotPlusThen (tailM : List Char → Option (List Char)) :
    List Char → Option (List Char)
  | [] => none
  | c :: cs =>
    if isNewlineChar c then none
    else
      match greedyDotPlusThen tailM cs with
      | some r => some r
      | none => tailM cs

/-- Tail of the require pattern after the `.+`: a quote then `)`. -/
def requireTail : List Char → Option (List Char)
  | q :: c :: rest => if isQuote q && c == ')' then some rest else none
  | _ => none

/-- Tail of the from pattern after the `.+`: a closing quote. -/
def fromTail : List Char → Option (List Char)
  | q :: rest => if isQuote q then some rest else none
  | _ => none

/-- Attempt to match `require\(['"](dep|dep\/.+)['"]\)` at the head of the
input; on success return the input remaining after the match. -/
def tryRequire (dep : List Char) (cs : List Char) : Option (List Char) :=
  match matchLit ("require(".data) cs with
  | none => none
  | some r1 =>
    match r1 with
    | [] => none
    | q :: r2 =>
      if isQuote q then
        match matchLit dep r2 with
        | some (q2 :: c :: r4) =>
          if isQuote q2 && c == ')' then some r4
          else
            match matchLit (dep ++ ['/']) r2 with
            | some r3 => greedyDotPlusThen requireTail r3
            | none => none
        | _ =>
          match matchLit (dep ++ ['/']) r2 with
          | some r3 => greedyDotPlusThen requireTail r3
          | none => none
      else none

/-- Attempt to match `from\s+['"](dep|dep\/.+)['"]` at the head of the
input; on success return the input remaining after the match. -/
def tryFrom (dep : List Char) (cs : List Char) : Option (List Char) :=
  match matchLit ("from".data) cs with
  | none => none
  | some r1 =>
    match r1 with
    | [] => none
    | c :: r2 =>
      if isSpaceChar c then
        match r2.dropWhile isSpaceChar with
        | [] => none
        | q :: r4 =>
          if isQuote q then
            match matchLit dep r4 with
            | some (q2 :: r5) =>
              if isQuote q2 then some r5
              else
                match matchLit (dep ++ ['/']) r4 with
                | some r3 => greedyDotPlusThen fromTail r3
                | none => none
            | _ =>
              match matchLit (dep ++ ['/']) r4 with
              | some r3 => greedyDotPlusThen fromTail r3
              | none => none
          else none
      else none

/-- Global scan: count non-overlapping matches left to right, continuing
after the end of each match.  `fuel` bounds the recursion; every match of
the patterns above consumes at least one character, so an initial fuel of
the input length is sufficient. -/
def scanCount (tryM : List Char → Option (List Char)) : Nat → List Char → Nat
  | 0, _ => 0
  | _, [] => 0
  | Nat.succ fuel, c :: cs =>
    match tryM (c :: cs) with
    | some rest => 1 + scanCount tryM fuel rest
    | none => scanCount tryM fuel cs

/-- Number of matches of `require\(['"](dep|dep\/.+)['"]\)` in `content`. -/
def countRequire (dep content : String) : Nat :=
  scanCount (tryRequire dep.data) content.data.length content.data

/-- Number of matches of `from\s+['"](dep|dep\/.+)['"]` in `content`. -/
def countFrom (dep content : String) : Nat :=
  scanCount (tryFrom dep.data) content.data.length content.data

/-! ## Data model of a project directory -/

/-- The parsed `package.json` manifest: the `dependencies` and
`devDependencies` objects as insertion-ordered name/version lists. -/
structure PkgJson where
  dependencies : List (String × String)
  devDependencies : List (String × String)

/-- A source file as seen by `dependencyAnalyzer.js`: its (glob-relative)
name and the result of `fs.readFileSync` on it. -/
structure SrcFile where
  name : String
  content : Except Unit String

/-- A top-level AST node as produced by `@babel/parser`, reduced to what
`analyzeImports` inspects: import declarations with their source string. -/
inductive JsNode where
  | importDecl (source : String)
  | otherNode

/-- A source file as seen by the import analyzers: the outer `Except` is
`fs.readFileSync` (a failure is rethrown by the outer catch), the inner one
is `parser.parse` (a failure is warned about and the file skipped). -/
structure ImpFile where
  name : String
  read : Except Unit (Except Unit (List JsNode))

/-- Result of `fs.statSync`, reduced to the fields the program reads. -/
structure DirStat where
  size : ℚ
  birthtime : ℚ

/-- A stored project directory: everything the analyzers observe about it.
`depFiles` is the result of the `glob.sync` call of `dependencyAnalyzer.js`
(pattern `**/*.{js,jsx,ts,tsx}`, ignoring `node_modules`, `dist`, `build`),
`impFiles` the result of the identical `glob.sync` call both import-analyzer
variants make. -/
structure Dir where
  pkgJson : Option (Except Unit PkgJson)
  depFiles : List SrcFile
  impFiles : List ImpFile
  stat : Except Unit DirStat
  readdir : Except Unit (List String)

/-- A path that is not a stored project: every file-system call on it
throws and it has no `package.json`. -/
def missingDir : Dir :=
  { pkgJson := none, depFiles := [], impFiles := [],
    stat := Except.error (), readdir := Except.error () }

/-! ## lib/dependencyAnalyzer.js -/

/-- An element of the array `analyzeDependencies` returns. -/
structure DepEntry where
  name : String
  version : String
  count : Nat
deriving DecidableEq

/-- One property assignment during object construction: first occurrence
fixes the key's position, later occurrences overwrite the value. -/
def objInsert (acc : List (String × String)) (kv : String × String) :
    List (String × String) :=
  if acc.any (fun p => p.1 == kv.1) then
    acc.map (fun p => if p.1 == kv.1 then (p.1, kv.2) else p)
  else acc ++ [kv]

/-- JS object construction from a key/value sequence (object literal spread
`{...a, ...b}` applied to `a ++ b`). -/
def objFromEntries (l : List (String × String)) : List (String × String) :=
  l.foldl objInsert []

/-- `version.replace(/[\^~]/g, '')`: drop every caret and tilde. -/
def stripVersionMarks (v : String) : String :=
  String.mk (v.data.filter (fun c => !(c == '^' || c == '~')))

/-- Initial usage object: every declared dependency maps to 0. -/
def usageInit (keys : List String) : List (String × Nat) :=
  keys.map (fun k => (k, 0))

/-- `dependencyUsage[dep] += n`.  The key is always present, having been
initialised from the same key list that is iterated. -/
def bumpUsage (m : List (String × Nat)) (dep : String) (n : Nat) :
    List (String × Nat) :=
  m.map (fun p => if p.1 == dep then (p.1, p.2 + n) else p)

/-- Inner loop over the declared dependencies for one file's content. -/
def countFileDeps (deps : List String) (content : String)
    (m : List (String × Nat)) : List (String × Nat) :=
  deps.foldl
    (fun m dep => bumpUsage m dep (countRequire dep content + countFrom dep content))
    m

/-- Outer loop over the globbed files.  `fs.readFileSync` is executed inside
the surrounding `try`, so a single unreadable file aborts the whole scan
(the catch then returns `[]`). -/
def scanFiles (deps : List String) :
    List SrcFile → List (String × Nat) → Except Unit (List (String × Nat))
  | [], m => Except.ok m
  | f :: fs, m =>
    match f.content with
    | Except.error _ => Except.error ()
    | Except.ok content => scanFiles deps fs (countFileDeps deps content m)

/-- Read `dependencyUsage[name]`. -/
def lookupUsage (m : List (String × Nat)) (k : String) : Nat :=
  ((m.find? (fun p => p.1 == k)).map (fun p => p.2)).getD 0

/-- Comparator `(a, b) => b.count - a.count` of `analyzeDependencies`,
reduced to the `<= 0` test used by the sort model. -/
def depCountLe (a b : DepEntry) : Bool :=
  decide ((b.count : Int) - (a.count : Int) ≤ 0)

/-- `analyzeDependencies(dirPath)` from `lib/dependencyAnalyzer.js`.
A missing `package.json` returns `[]`; a JSON parse failure or a file read
failure is caught, logged, and turned into `[]`.  Otherwise every declared
dependency (of `dependencies` and `devDependencies` merged by object
spread) is counted over all globbed files, entries with zero usage are
dropped, versions lose their `^`/`~` marks, and the result is sorted by
usage count, highest first.  (The console bar chart the function prints is
output only and not modelled.) -/
def analyzeDependencies (d : Dir) : List DepEntry :=
  match d.pkgJson with
  | none => []
  | some (Except.error _) => []
  | some (Except.ok pj) =>
    let allDeps := objFromEntries (pj.dependencies ++ pj.devDependencies)
    let keys := allDeps.map (fun kv => kv.1)
    match scanFiles keys d.depFiles (usageInit keys) with
    | Except.error _ => []
    | Except.ok usage =>
      let dependencies :=
        (allDeps.map (fun kv =>
          DepEntry.mk kv.1 (stripVersionMarks kv.2) (lookupUsage usage kv.1))).filter
          (fun e => decide (0 < e.count))
      jsSortBy depCountLe dependencies

/-- Matches contributed by one file: zero if the file was unreadable (that
case never coexists with a nonempty analysis result). -/
def fileMatches (name : String) (f : SrcFile) : Nat :=
  match f.content with
  | Except.error _ => 0
  | Except.ok content => countRequire name content + countFrom name content

/-- Total number of `require`/`from` matches for `name` over all source
files of the directory. -/
def totalMatches (d : Dir) (name : String) : Nat :=
  (d.depFiles.map (fileMatches name)).sum

/-! ## The two import-analyzer variants

The repository carries two versions of `lib/importAnalyzer.js`: one prints
an ASCII bar chart before returning (modelled in `ImportsChart`), the other
returns the map silently (modelled in `ImportsPlain`).  Both return the
`importMap` object and rethrow read/scan errors. -/

/-- Per-package record of the `importMap`. -/
structure ImportEntry where
  count : Nat
  files : List String
  isInEntryPoint : Bool
deriving DecidableEq

/-- The `importMap`: a JS object keyed by package name. -/
abbrev ImportMap : Type := List (String × ImportEntry)

/-- The entry-point file names both variants special-case. -/
def entryPoints : List String := ["index.js", "main.js", "server.js", "app.js"]

namespace ImportsChart

/-- Processing of one top-level AST node inside `files.forEach`. -/
def processNode (file : String) (m : ImportMap) : JsNode → ImportMap
  | JsNode.otherNode => m
  | JsNode.importDecl packageName =>
    if packageName.startsWith "." then m
    else
      let m' :=
        if m.any (fun p => p.1 == packageName) then m
        else m ++ [(packageName, ImportEntry.mk 0 [] false)]
      m'.map (fun p =>
        if p.1 == packageName then
          (p.1,
            { count := p.2.count + 1,
              files := p.2.files ++ [file],
              isInEntryPoint :=
                if entryPoints.contains file then true else p.2.isInEntryPoint })
        else p)

/-- One iteration of `files.forEach`: a read failure propagates to the
outer catch (which rethrows); a parse failure is warned about and the file
skipped; otherwise every top-level node is processed. -/
def processFile (acc : ImportMap × List String) (f : ImpFile) :
    Except Unit (ImportMap × List String)  :=
  match f.read with
  | Except.error _ => Except.error ()
  | Except.ok (Except.error _) =>
    Except.ok (acc.1, acc.2 ++ ["Warning: Could not parse " ++ f.name])
  | Except.ok (Except.ok body) =>
    Except.ok (body.foldl (fun m node => processNode f.name m node) acc.1, acc.2)

def goFiles : List ImpFile → ImportMap × List String →
    Except Unit (ImportMap × List String)
  | [], acc => Except.ok acc
  | f :: fs, acc =>
    match processFile acc f with
    | Except.error e => Except.error e
    | Except.ok acc' => goFiles fs acc'

/-- Shape of an element of `sortedImports`. -/
structure ImpEntry where
  name : String
  count : Nat
  isInEntryPoint : Bool

/-- `Math.round` (round half toward positive infinity), clamped to `Nat`
for `String.repeat`; the chart arguments are always nonnegative. -/
def jsRoundNat (q : ℚ) : Nat := (Int.floor (q + 1/2)).toNat

/-- `str.padEnd(n)` with spaces. -/
def padEnd (s : String) (n : Nat) : String :=
  s ++ String.mk (List.replicate (n - s.length) ' ')

def repeatChar (c : Char) (n : Nat) : String := String.mk (List.replicate n c)

def maxNat (l : List Nat) : Nat := l.foldl Nat.max 0

/-- `createBarChart` of the chart variant. -/
def createBarChart (imports : List ImpEntry) : String :=
  if imports.length == 0 then "No imports found"
  else
    let maxNameLength := maxNat (imports.map (fun dep => dep.name.length))
    let maxCount := maxNat (imports.map (fun dep => dep.count))
    String.intercalate "\n"
      (imports.map (fun dep =>
        let normalizedCount := jsRoundNat (((dep.count : ℚ) / (maxCount : ℚ)) * 30)
        let bar := repeatChar '─' normalizedCount
        let entryPointMarker := if dep.isInEntryPoint then "*" else ""
        padEnd dep.name maxNameLength ++ " |" ++ bar ++ " " ++
          toString dep.count ++ " " ++ entryPointMarker))

/-- Comparator `(a, b) => b.count - a.count` over `sortedImports`. -/
def impCountLe (a b : ImpEntry) : Bool :=
  decide ((b.count : Int) - (a.count : Int) ≤ 0)

/-- `analyzeImports(projectPath)`, chart-printing variant: returns the
`importMap` it built, together with its console output (warnings, then the
bar chart over the count-sorted entries). -/
def analyzeImports (d : Dir) : Except Unit (ImportMap × List String) :=
  match goFiles d.impFiles ([], []) with
  | Except.error e => Except.error e
  | Except.ok (importMap, logs) =>
    let sortedImports :=
      jsSortBy impCountLe
        (importMap.map (fun p => ImpEntry.mk p.1 p.2.count p.2.isInEntryPoint))
    Except.ok (importMap, logs ++ ["Import Usage Chart:", createBarChart sortedImports])

end ImportsChart

namespace ImportsPlain

/-- Processing of one top-level AST node inside `files.forEach`. -/
def processNode (file : String) (m : ImportMap) : JsNode → ImportMap
  | JsNode.otherNode => m
  | JsNode.importDecl packageName =>
    if packageName.startsWith "." then m
    else
      let m' :=
        if m.any (fun p => p.1 == packageName) then m
        else m ++ [(packageName, ImportEntry.mk 0 [] false)]
      m'.map (fun p =>
        if p.1 == packageName then
          (p.1,
            { count := p.2.count + 1,
              files := p.2.files ++ [file],
              isInEntryPoint :=
                if entryPoints.contains file then true else p.2.isInEntryPoint })
        else p)

/-- One iteration of `files.forEach`, as in the chart variant. -/
def processFile (acc : ImportMap × List String) (f : ImpFile) :
    Except Unit (ImportMap × List String) :=
  match f.read with
  | Except.error _ => Except.error ()
  | Except.ok (Except.error _) =>
    Except.ok (acc.1, acc.2 ++ ["Warning: Could not parse " ++ f.name])
  | Except.ok (Except.ok body) =>
    Except.ok (body.foldl (fun m node => processNode f.name m node) acc.1, acc.2)

def goFiles : List ImpFile → ImportMap × List String →
    Except Unit (ImportMap × List String)
  | [], acc => Except.ok acc
  | f :: fs, acc =>
    match processFile acc f with
    | Except.error e => Except.error e
    | Except.ok acc' => goFiles fs acc'

/-- `analyzeImports(projectPath)`, plain variant: returns the `importMap`
it built together with its console output (parse warnings only). -/
def analyzeImports (d : Dir) : Except Unit (ImportMap × List String) :=
  goFiles d.impFiles ([], [])

end ImportsPlain

/-! ## The persisted config file (src/index.js) -/

/-- A JSON value, for the contents of `data/directories.json`. -/
inductive Jval where
  | jnull
  | jbool (b : Bool)
  | jnum (q : ℚ)
  | jstr (s : String)
  | jarr (elems : List Jval)
  | jobj (fields : List (String × Jval))

/-- Property read `obj[k]` on a JS object. -/
def objGet (fields : List (String × Jval)) (k : String) : Option Jval :=
  ((fields.find? (fun p => p.1 == k)).map (fun p => p.2))

/-- Property write `obj[k] = v` for a key that is present: the key keeps
its position. -/
def objSet (fields : List (String × Jval)) (k : String) (v : Jval) :
    List (String × Jval) :=
  fields.map (fun p => if p.1 == k then (p.1, v) else p)

def isJStr : Jval → Bool
  | Jval.jstr _ => true
  | _ => false

/-- The shape `{ directories: string[] }` the spec promises for every read
of the persisted state: an object whose `directories` field is an array of
strings. -/
def isDirectoriesShape : Jval → Bool
  | Jval.jobj fields =>
    match objGet fields "directories" with
    | some (Jval.jarr xs) => xs.all isJStr
    | _ => false
  | _ => false

/-- `JSON.stringify({ directories: [] })`, written at startup when the
config file is absent. -/
def initConfigValue : Jval := Jval.jobj [("directories", Jval.jarr [])]

/-- Startup: `if (!fs.existsSync(CONFIG_FILE)) writeFileSync(...)`.
Returns the value written, if any. -/
def ensureConfigWrite (fileExists : Bool) : Option Jval :=
  if fileExists then none else some initConfigValue

/-- `array.includes(dirPath)` under SameValueZero: only a string equal to
`dirPath` matches. -/
def includesStr (xs : List Jval) (p : String) : Bool :=
  xs.any (fun v =>
    match v with
    | Jval.jstr s => s == p
    | _ => false)

/-- `saveDirectory(dirPath)`: read the parsed config `v`, and if
`data.directories` does not include the path, push it and write the file.
Returns the value written, or `none` when nothing is written — either
because the path is already present, or because a malformed value makes
the function throw (`.includes`/`.push` on a non-array) before any write. -/
def saveDirectory (v : Jval) (p : String) : Option Jval :=
  match v with
  | Jval.jobj fields =>
    match objGet fields "directories" with
    | some (Jval.jarr xs) =>
      if includesStr xs p then none
      else some (Jval.jobj (objSet fields "directories" (Jval.jarr (xs ++ [Jval.jstr p]))))
    | _ => none
  | _ => none

/-! ## The world a command invocation sees -/

/-- Ambient state for one CLI invocation: the parsed config file, the
stored project directories, and the path facilities `index.js` uses. -/
structure World where
  configFile : Jval
  projects : List (String × Dir)
  home : String
  resolve : String → String
  pathExists : String → Bool

/-- Look a path up among the projects; anything else behaves like a
missing directory. -/
def World.find (w : World) (p : String) : Dir :=
  (((w.projects.find? (fun q => q.1 == p)).map (fun q => q.2))).getD missingDir

/-- A stored `directories` element used as a path (non-strings would reach
the file system as garbage and find nothing). -/
def jvalAsPath : Jval → String
  | Jval.jstr s => s
  | _ => ""

/-- `getStoredDirectories().directories` as used by the commands: property
access plus iteration; a missing or non-array field makes the command
throw. -/
def getDirectoriesJs : Jval → Except Unit (List String)
  | Jval.jobj fields =>
    match objGet fields "directories" with
    | some (Jval.jarr xs) => Except.ok (xs.map jvalAsPath)
    | _ => Except.error ()
  | _ => Except.error ()

/-- `expandTilde(filePath)` from `index.js`. -/
def expandTilde (home : String) (filePath : String) : String :=
  match filePath.data with
  | c :: rest => if c == '~' then home ++ String.mk rest else filePath
  | [] => filePath

/-! ## analyzeDirectory (src/index.js) -/

/-- The object `analyzeDirectory` returns: the success shape or the
catch-branch shape `{ path, error, score: 0 }` (the message text is not
modelled).  `size` is kept as the rational the string `dirSize.toFixed(2)`
renders. -/
inductive AResult where
  | okR (path : String) (fileCount : Nat) (sizeMB : ℚ)
      (dependencyScore : List DepEntry) (importScore : ImportMap) (score : JNum)
  | errR (path : String) (score : JNum)
deriving DecidableEq

def AResult.score : AResult → JNum
  | AResult.okR _ _ _ _ _ s => s
  | AResult.errR _ s => s

/-- `Number(importScore)` where `importScore` is the object returned by
`analyzeImports`: converting a plain object to a number yields NaN. -/
def objToNumber (_ : ImportMap) : JNum := JNum.nan

/-- `analyzeDirectory(dirPath)` from `index.js`.  Inside a `try`:
`statSync`, `readdirSync`, the score arithmetic, `analyzeDependencies`
(which never throws) and `analyzeImports` (which may throw, landing in the
catch).  Note `score += Math.min(importScore, 15)` coerces the returned
map of imports to a number, so a successful analysis always poisons the
score to NaN. -/
def analyzeDirectory (now : ℚ) (w : World) (dirPath : String) : AResult :=
  let d := w.find dirPath
  match d.stat with
  | Except.error _ => AResult.errR dirPath (JNum.num 0)
  | Except.ok stats =>
    match d.readdir with
    | Except.error _ => AResult.errR dirPath (JNum.num 0)
    | Except.ok files =>
      match ImportsChart.analyzeImports d with
      | Except.error _ => AResult.errR dirPath (JNum.num 0)
      | Except.ok (importMap, _chart) =>
        let dependencyScore := analyzeDependencies d
        let base : ℚ := 0 + 10
        let withFiles : ℚ := base + min (files.length : ℚ) 30
        let dirSize : ℚ := stats.size / (1024 * 1024)
        let withSize : ℚ := withFiles + min ((Int.floor dirSize : ℤ) : ℚ) 30
        let ageInDays : ℚ := (now - stats.birthtime) / (1000 * 60 * 60 * 24)
        let withAge : ℚ :=
          withSize + max (30 - ((Int.floor (ageInDays / 30) : ℤ) : ℚ)) 0
        let withDeps : ℚ := withAge + min ((dependencyScore.length : ℚ) * 3) 15
        let score : JNum := jadd (JNum.num withDeps) (jmin (objToNumber importMap) (JNum.num 15))
        AResult.okR dirPath files.length dirSize dependencyScore importMap
          (jmin score (JNum.num 100))

/-! ## The CLI commands -/

/-- Comparator `(a, b) => b.score - a.score` of the first analyze variant,
reduced to the `<= 0` test of the sort model (a NaN difference counts as
0). -/
def resultScoreLe (a b : AResult) : Bool :=
  jleZero (jsub b.score a.score)

/-- `list` command: prints the stored directories, writes nothing. -/
def listCmd (w : World) : World × Except Unit (List String) :=
  (w,
    (getDirectoriesJs w.configFile).map (fun dirs =>
      "Stored directories:" ::
        (dirs.enum.map (fun p => toString (p.1 + 1) ++ ". " ++ p.2))))

/-- The no-argument interactive flow: expand `~`, resolve, and if the path
exists save it through `saveDirectory`; otherwise print an error.  The
updated world and the config value written (if any) are returned. -/
def interactiveCmd (w : World) (input : String) : World × Option Jval :=
  let expandedPath := expandTilde w.home input
  let absolutePath := w.resolve expandedPath
  if w.pathExists absolutePath then
    match saveDirectory w.configFile absolutePath with
    | some v => ({ w with configFile := v }, some v)
    | none => (w, none)
  else (w, none)

/-- `analyze` command, first variant: map `analyzeDirectory` over the
stored directories and sort the results by score, highest first. -/
def analyzeCmd1 (now : ℚ) (w : World) : World × Except Unit (List AResult) :=
  (w,
    (getDirectoriesJs w.configFile).map (fun dirs =>
      jsSortBy resultScoreLe (dirs.map (fun dp => analyzeDirectory now w dp))))

/-- The per-dependency record of the running tally `dependencyUsage`
(a JS `Map` of `{ count, versions: Set, dirs: Set }`). -/
structure Usage where
  count : Nat
  versions : List String
  dirs : List String
deriving DecidableEq

abbrev TallyMap : Type := List (String × Usage)

/-- `Set.add`: append if absent. -/
def setAdd (l : List String) (x : String) : List String :=
  if l.contains x then l else l ++ [x]

/-- Tracking of one reported dependency of one directory: create the entry
on first sight, then accumulate count, version and directory. -/
def tallyInsert (t : TallyMap) (dirPath : String) (e : DepEntry) : TallyMap :=
  let t' :=
    if t.any (fun p => p.1 == e.name) then t
    else t ++ [(e.name, Usage.mk 0 [] [])]
  t'.map (fun p =>
    if p.1 == e.name then
      (p.1,
        { count := p.2.count + e.count,
          versions := setAdd p.2.versions e.version,
          dirs := setAdd p.2.dirs dirPath })
    else p)

def lookupTally (t : TallyMap) (k : String) : Option Usage :=
  ((t.find? (fun p => p.1 == k)).map (fun p => p.2))

/-- Comparator `(a, b) => b[1].count - a[1].count` over the tally entries. -/
def tallyCountLe (a b : String × Usage) : Bool :=
  decide ((b.2.count : Int) - (a.2.count : Int) ≤ 0)

/-- What the second analyze variant accumulates and displays. -/
structure Cmd2Out where
  perDir : List AResult
  tally : TallyMap
  ranked : List (String × Usage)
  totalImportScore : ℚ
deriving DecidableEq

/-- Per-directory loop of the second analyze variant: tally the reported
dependencies, then run `analyzeImports` bare — its exceptions abort the
whole command — then `analyzeDirectory` for the overall numbers.  The
`if (imports > 0)` test compares the returned map object with 0, which is
false (NaN comparison), so `totalImportScore` is never increased. -/
def analyzeCmd2Loop (now : ℚ) (w : World) :
    List String → TallyMap → ℚ → List AResult →
      Except Unit (TallyMap × ℚ × List AResult)
  | [], tally, totalImp, acc => Except.ok (tally, totalImp, acc)
  | dp :: rest, tally, totalImp, acc =>
    let dependencies := analyzeDependencies (w.find dp)
    let tally' := dependencies.foldl (fun t e => tallyInsert t dp e) tally
    match ImportsChart.analyzeImports (w.find dp) with
    | Except.error _ => Except.error ()
    | Except.ok _imports =>
      let totalImp' := totalImp
      let analysis := analyzeDirectory now w dp
      analyzeCmd2Loop now w rest tally' totalImp' (acc ++ [analysis])

/-- `analyze` command, second variant: run the per-directory loop over the
stored directories, then rank the tally by summed count, highest first. -/
def analyzeCmd2 (now : ℚ) (w : World) : World × Except Unit Cmd2Out :=
  (w,
    match getDirectoriesJs w.configFile with
    | Except.error e => Except.error e
    | Except.ok dirs =>
      match analyzeCmd2Loop now w dirs [] 0 [] with
      | Except.error e => Except.error e
      | Except.ok (tally, totalImp, perDir) =>
        Except.ok
          { perDir := perDir, tally := tally,
            ranked := jsSortBy tallyCountLe tally,
            totalImportScore := totalImp })

/-! ## Specification-side views of the running tally -/

/-- The entry (if any) that `analyzeDependencies` reports for dependency
`k` in directory `dp`. -/
def reportedDep (w : World) (dp k : String) : Option DepEntry :=
  (analyzeDependencies (w.find dp)).find? (fun e => e.name == k)

/-- All reports of dependency `k` across the stored directories, in
iteration order, paired with the reporting directory. -/
def collectReports (w : World) (dirs : List String) (k : String) :
    List (String × DepEntry) :=
  dirs.filterMap (fun dp => (reportedDep w dp k).map (fun e => (dp, e)))

def sumCounts (l : List (String × DepEntry)) : Nat :=
  (l.map (fun p => p.2.count)).sum

/-- Insertion-ordered set of the values of `f` over the reports. -/
def collectSet (f : String × DepEntry → String) (l : List (String × DepEntry))
    (init : List String) : List String :=
  l.foldl (fun acc p => setAdd acc (f p)) init

/-- Effect of tallying one (optional) report on one tally value. -/
def mergeOne (o : Option Usage) (r : Option DepEntry) (dp : String) : Option Usage :=
  match r with
  | none => o
  | some e =>
    some
      { count := ((o.map Usage.count).getD 0) + e.count,
        versions := setAdd ((o.map Usage.versions).getD []) e.version,
        dirs := setAdd ((o.map Usage.dirs).getD []) dp }

/-- Effect of tallying a list of reports on one tally value. -/
def mergeMany (o : Option Usage) (l : List (String × DepEntry)) : Option Usage :=
  l.foldl (fun o p => mergeOne o (some p.2) p.1) o

/-! ## Concrete inputs used by witnesses and counterexamples -/

/-- A manifest declaring one dependency. -/
def pjLodash : PkgJson := PkgJson.mk [("lodash", "^1.0.0")] []

def fileRequireLodash : SrcFile := SrcFile.mk "a.js" (Except.ok "require(\"lodash\")")

def fileFromLodash : SrcFile := SrcFile.mk "b.js" (Except.ok "import x from \"lodash\"")

/-- A healthy project: one dependency, used once via `require` and once
via `from`. -/
def dirLodash : Dir :=
  { pkgJson := some (Except.ok pjLodash),
    depFiles := [fileRequireLodash, fileFromLodash],
    impFiles := [],
    stat := Except.ok (DirStat.mk 0 0),
    readdir := Except.ok [] }

/-- A project whose import analysis hits an unreadable source file. -/
def dirBadRead : Dir :=
  { pkgJson := none,
    depFiles := [],
    impFiles := [ImpFile.mk "a.js" (Except.error ())],
    stat := Except.ok (DirStat.mk 0 0),
    readdir := Except.ok [] }

/-- An empty but fully accessible project. -/
def dirEmptyOk : Dir :=
  { pkgJson := none, depFiles := [], impFiles := [],
    stat := Except.ok (DirStat.mk 0 0), readdir := Except.ok [] }

def configWith (dirs : List String) : Jval :=
  Jval.jobj [("directories", Jval.jarr (dirs.map Jval.jstr))]

/-- World with one stored, fully accessible project. -/
def wEmptyOk : World :=
  { configFile := configWith ["proj"], projects := [("proj", dirEmptyOk)],
    home := "", resolve := fun s => s, pathExists := fun _ => false }

/-- World whose single stored project has an unreadable source file. -/
def wBadRead : World :=
  { configFile := configWith ["proj"], projects := [("proj", dirBadRead)],
    home := "", resolve := fun s => s, pathExists := fun _ => false }

/-- World with one missing directory and one accessible one. -/
def wMixed : World :=
  { configFile := configWith ["bad", "good"], projects := [("good", dirEmptyOk)],
    home := "", resolve := fun s => s, pathExists := fun _ => false }

/-- World with two missing directories (every analysis errors, scores 0). -/
def wTwoMissing : World :=
  { configFile := configWith ["a", "b"], projects := [],
    home := "", resolve := fun s => s, pathExists := fun _ => false }

/-- World with a single stored directory that is missing. -/
def wOneMissing : World :=
  { configFile := configWith ["a"], projects := [],
    home := "", resolve := fun s => s, pathExists := fun _ => false }

/-- World with the lodash project stored. -/
def wLodash : World :=
  { configFile := configWith ["p"], projects := [("p", dirLodash)],
    home := "", resolve := fun s => s, pathExists := fun _ => false }

/-- What the second analyze variant produces on `wLodash` (see the C3
witness). -/
def outLodash : Cmd2Out :=
  Cmd2Out.mk
    [AResult.okR "p" 0 (0 / (1024 * 1024)) [DepEntry.mk "lodash" "1.0.0" 2] [] JNum.nan]
    [("lodash", Usage.mk 2 ["1.0.0"] ["p"])]
    [("lodash", Usage.mk 2 ["1.0.0"] ["p"])]
    0

/-! ## Theorems -/

theorem importsGo_eq : ∀ (fs : List ImpFile) (acc : ImportMap × List String),
    ImportsChart.goFiles fs acc = ImportsPlain.goFiles fs acc
  | [], _ => rfl
  | f :: fs, acc => by
    have hpf : ImportsChart.processFile acc f = ImportsPlain.processFile acc f := rfl
    simp only [ImportsChart.goFiles, ImportsPlain.goFiles, hpf]
    cases ImportsPlain.processFile acc f with
    | error e => rfl
    | ok acc' => exact importsGo_eq fs acc'

/-- Claim C4: the chart-printing and the plain variants of `analyzeImports`
return equal import maps on every project directory — the same count, file
list and entry-point flag per package, and the same thrown errors; they
differ only in console output. -/
theorem claim_C4_import_variants_agree (d : Dir) :
    Except.map Prod.fst (ImportsChart.analyzeImports d) =
      Except.map Prod.fst (ImportsPlain.analyzeImports d) := by
  unfold ImportsChart.analyzeImports ImportsPlain.analyzeImports
  rw [← importsGo_eq]
  cases ImportsChart.goFiles d.impFiles ([], []) with
  | error e => rfl
  | ok acc => rfl

theorem objGet_objSet (k : String) (v : Jval) :
    ∀ fields : List (String × Jval), (objGet fields k).isSome →
      objGet (objSet fields k v) k = some v
  | [], h => by simp [objGet] at h
  | p :: fields, h => by
    have haux : objSet (p :: fields) k v =
        (if p.1 == k then (p.1, v) else p) :: objSet fields k v := rfl
    by_cases hk : (p.1 == k) = true
    · rw [show objGet (objSet (p :: fields) k v) k =
          Option.map (fun q => q.2)
            (List.find? (fun q => q.1 == k)
              ((if p.1 == k then (p.1, v) else p) :: objSet fields k v)) from rfl]
      rw [if_pos hk, List.find?_cons_of_pos _ (by exact hk)]
      rfl
    · rw [show objGet (objSet (p :: fields) k v) k =
          Option.map (fun q => q.2)
            (List.find? (fun q => q.1 == k)
              ((if p.1 == k then (p.1, v) else p) :: objSet fields k v)) from rfl]
      rw [if_neg hk, List.find?_cons_of_neg _ (by simpa using hk)]
      apply objGet_objSet k v fields
      have h2 : (Option.map (fun q => q.2)
          (List.find? (fun q => q.1 == k) (p :: fields))).isSome = true := h
      rw [List.find?_cons_of_neg _ (by simpa using hk)] at h2
      exact h2

/-- Claim C6: every value the program writes to the config file has the
shape `{ directories: string[] }` — the startup write when the file is
absent is `{ directories: [] }`, and `saveDirectory`, starting from a
value of that shape, writes a value of that shape again. -/
theorem claim_C6_config_shape :
    isDirectoriesShape initConfigValue = true ∧
    (∀ b wv, ensureConfigWrite b = some wv → isDirectoriesShape wv = true) ∧
    (∀ v p wv, isDirectoriesShape v = true → saveDirectory v p = some wv →
      isDirectoriesShape wv = true) := by
  refine ⟨rfl, ?_, ?_⟩
  · intro b wv h
    cases b with
    | true => simp [ensureConfigWrite] at h
    | false =>
      simp only [ensureConfigWrite, if_neg] at h
      cases h
      rfl
  · intro v p wv hshape hsave
    cases v with
    | jobj fields =>
      cases hdir : objGet fields "directories" with
      | none => simp [saveDirectory, hdir] at hsave
      | some jv =>
        cases jv with
        | jarr xs =>
          by_cases hin : includesStr xs p = true
          · simp [saveDirectory, hdir, hin] at hsave
          · simp only [saveDirectory, hdir, hin, Bool.false_eq_true, if_false,
              Option.some.injEq] at hsave
            subst hsave
            have hall : xs.all isJStr = true := by
              simpa [isDirectoriesShape, hdir] using hshape
            have hget : objGet (objSet fields "directories"
                (Jval.jarr (xs ++ [Jval.jstr p]))) "directories" =
                some (Jval.jarr (xs ++ [Jval.jstr p])) :=
              objGet_objSet _ _ fields (by simp [hdir])
            simp [isDirectoriesShape, hget, List.all_append, hall, isJStr]
        | jnull => simp [saveDirectory, hdir] at hsave
        | jbool b => simp [saveDirectory, hdir] at hsave
        | jnum q => simp [saveDirectory, hdir] at hsave
        | jstr s => simp [saveDirectory, hdir] at hsave
        | jobj f2 => simp [saveDirectory, hdir] at hsave
    | jnull => simp [saveDirectory] at hsave
    | jbool b => simp [saveDirectory] at hsave
    | jnum q => simp [saveDirectory] at hsave
    | jstr s => simp [saveDirectory] at hsave
    | jarr xs => simp [saveDirectory] at hsave

/-- Witness for C6 at a concrete input: saving `/tmp/proj` into the
freshly initialised config yields a value of the promised shape. -/
theorem claim_C6_config_shape_witness :
    isDirectoriesShape (Jval.jobj [("directories", Jval.jarr [Jval.jstr "/tmp/proj"])]) = true :=
  claim_C6_config_shape.2.2 initConfigValue "/tmp/proj"
    (Jval.jobj [("directories", Jval.jarr [Jval.jstr "/tmp/proj"])]) rfl rfl

theorem includesStr_of_mem {xs : List Jval} {p : String}
    (h : Jval.jstr p ∈ xs) : includesStr xs p = true := by
  refine List.any_eq_true.mpr ⟨Jval.jstr p, h, ?_⟩
  simp

/-- Claim C9: calling `saveDirectory` with a path already present leaves
the config file unwritten (hence byte-for-byte unchanged), and a write
that does happen appends the one new path, preserving the no-duplicates
property of the stored list. -/
theorem claim_C9_saveDirectory_idempotent (fields : List (String × Jval))
    (xs : List Jval) (p : String)
    (hdir : objGet fields "directories" = some (Jval.jarr xs)) :
    (Jval.jstr p ∈ xs → saveDirectory (Jval.jobj fields) p = none) ∧
    (∀ wv, xs.Nodup → saveDirectory (Jval.jobj fields) p = some wv →
      wv = Jval.jobj (objSet fields "directories" (Jval.jarr (xs ++ [Jval.jstr p]))) ∧
        (xs ++ [Jval.jstr p]).Nodup) := by
  constructor
  · intro hmem
    simp [saveDirectory, hdir, includesStr_of_mem hmem]
  · intro wv hnd hsave
    by_cases hin : includesStr xs p = true
    · simp [saveDirectory, hdir, hin] at hsave
    · simp only [saveDirectory, hdir, hin, Bool.false_eq_true, if_false,
        Option.some.injEq] at hsave
      have hnotmem : Jval.jstr p ∉ xs := fun hmem => hin (includesStr_of_mem hmem)
      refine ⟨hsave.symm, ?_⟩
      refine List.Nodup.append hnd (List.nodup_singleton _) ?_
      intro a ha hb
      rcases List.mem_singleton.mp hb with rfl
      exact hnotmem ha

/-- Witness for C9 at a concrete input: saving an already-stored path
writes nothing. -/
theorem claim_C9_saveDirectory_idempotent_witness :
    saveDirectory (Jval.jobj [("directories", Jval.jarr [Jval.jstr "/a"])]) "/a" = none :=
  (claim_C9_saveDirectory_idempotent [("directories", Jval.jarr [Jval.jstr "/a"])]
    [Jval.jstr "/a"] "/a" rfl).1 (List.mem_singleton.mpr rfl)

/-- Claim C7: the `list` and `analyze` commands leave the world — in
particular the persisted config — untouched; only the interactive flow
writes, and then exactly through `saveDirectory` on the resolved input
path. -/
theorem claim_C7_frame (w : World) (now : ℚ) (input : String) :
    (listCmd w).1 = w ∧ (analyzeCmd1 now w).1 = w ∧ (analyzeCmd2 now w).1 = w ∧
    (interactiveCmd w input).1.configFile =
      (if w.pathExists (w.resolve (expandTilde w.home input)) then
        (saveDirectory w.configFile (w.resolve (expandTilde w.home input))).getD w.configFile
      else w.configFile) ∧
    (interactiveCmd w input).2 =
      (if w.pathExists (w.resolve (expandTilde w.home input)) then
        saveDirectory w.configFile (w.resolve (expandTilde w.home input))
      else none) := by
  refine ⟨rfl, rfl, rfl, ?_, ?_⟩ <;>
  · unfold interactiveCmd
    by_cases hex : w.pathExists (w.resolve (expandTilde w.home input)) = true
    · simp only [hex, if_true]
      cases hsv : saveDirectory w.configFile (w.resolve (expandTilde w.home input)) with
      | none => simp [hsv]
      | some v => simp [hsv]
    · simp [hex]

/-- Claim C8 (code bug): on a stored directory where `statSync` and
`readdirSync` both succeed (size 0, no files, no manifest), the score is
NaN, not a number between 10 and 100: `Math.min(importScore, 15)` coerces
the import map object returned by `analyzeImports` to NaN. -/
theorem claim_C8_score_nan :
    (analyzeDirectory 0 wEmptyOk "proj").score = JNum.nan := rfl

/-- Counterexample to C1 as stated: an unreadable source file inside a
stored project makes `analyzeImports` throw, and the second variant of the
`analyze` command — which calls it outside any try/catch — aborts instead
of converting the error into a zero/default score or a skipped entry. -/
theorem claim_C1_counterexample :
    (analyzeCmd2 0 wBadRead).2 = Except.error () := rfl

theorem scanFiles_error (deps : List String) :
    ∀ (fs : List SrcFile) (m : List (String × Nat)),
      (∃ f ∈ fs, f.content = Except.error ()) →
      scanFiles deps fs m = Except.error ()
  | [], _, h => by rcases h with ⟨f, hf, _⟩; cases hf
  | f :: fs, m, h => by
    cases hc : f.content with
    | error e => simp [scanFiles, hc]
    | ok content =>
      simp only [scanFiles, hc]
      refine scanFiles_error deps fs _ ?_
      rcases h with ⟨g, hg, hge⟩
      rcases List.mem_cons.mp hg with rfl | hg2
      · rw [hc] at hge; cases hge
      · exact ⟨g, hg2, hge⟩

theorem analyzeCmd2Loop_error (now : ℚ) (w : World) :
    ∀ (dirs : List String) (t : TallyMap) (ti : ℚ) (acc : List AResult),
      (∃ dp ∈ dirs, ImportsChart.analyzeImports (w.find dp) = Except.error ()) →
      analyzeCmd2Loop now w dirs t ti acc = Except.error ()
  | [], _, _, _, h => by rcases h with ⟨dp, hdp, _⟩; cases hdp
  | dp :: rest, t, ti, acc, h => by
    cases himp : ImportsChart.analyzeImports (w.find dp) with
    | error e => simp [analyzeCmd2Loop, himp]
    | ok v =>
      simp only [analyzeCmd2Loop, himp]
      refine analyzeCmd2Loop_error now w rest _ _ _ ?_
      rcases h with ⟨dq, hdq, hde⟩
      rcases List.mem_cons.mp hdq with rfl | hdq2
      · rw [himp] at hde; cases hde
      · exact ⟨dq, hdq2, hde⟩

/-- Claim C1 as amended: errors during dependency analysis (missing or
unparseable manifest, unreadable file) are converted into an empty result,
per-file parse failures during import analysis only produce a warning and
skip the file, and a read failure inside `analyzeImports` is rethrown: the
first analyze variant catches it inside `analyzeDirectory`, yielding an
error entry with score 0, but the second analyze variant, which calls
`analyzeImports` outside any try/catch, is aborted by it. -/
theorem claim_C1_amended :
    (∀ (now : ℚ) (w : World) (dp : String),
      ImportsChart.analyzeImports (w.find dp) = Except.error () →
      analyzeDirectory now w dp = AResult.errR dp (JNum.num 0)) ∧
    (∀ (now : ℚ) (w : World) (dirs : List String),
      getDirectoriesJs w.configFile = Except.ok dirs →
      (∃ dp ∈ dirs, ImportsChart.analyzeImports (w.find dp) = Except.error ()) →
      (analyzeCmd2 now w).2 = Except.error ()) ∧
    (∀ d : Dir,
      (d.pkgJson = none → analyzeDependencies d = []) ∧
      (d.pkgJson = some (Except.error ()) → analyzeDependencies d = []) ∧
      ((∃ f ∈ d.depFiles, f.content = Except.error ()) → analyzeDependencies d = [])) ∧
    (∀ (acc : ImportMap × List String) (f : ImpFile),
      f.read = Except.ok (Except.error ()) →
      ImportsChart.processFile acc f =
        Except.ok (acc.1, acc.2 ++ ["Warning: Could not parse " ++ f.name])) := by
  refine ⟨?_, ?_, ?_, ?_⟩
  · intro now w dp himp
    cases hstat : (w.find dp).stat with
    | error e => simp [analyzeDirectory, hstat]
    | ok stats =>
      cases hrd : (w.find dp).readdir with
      | error e => simp [analyzeDirectory, hstat, hrd]
      | ok files => simp [analyzeDirectory, hstat, hrd, himp]
  · intro now w dirs hdirs hex
    simp only [analyzeCmd2, hdirs]
    rw [analyzeCmd2Loop_error now w dirs [] 0 [] hex]
  · intro d
    refine ⟨?_, ?_, ?_⟩
    · intro h; simp [analyzeDependencies, h]
    · intro h; simp [analyzeDependencies, h]
    · intro h
      cases hp : d.pkgJson with
      | none => simp [analyzeDependencies, hp]
      | some r =>
        cases r with
        | error e => simp [analyzeDependencies, hp]
        | ok pj =>
          simp only [analyzeDependencies, hp]
          rw [scanFiles_error _ _ _ h]
  · intro acc f hread
    simp [ImportsChart.processFile, hread]

/-- Witness for the amended C1 at concrete inputs: the unreadable-file
project gives a zero-score error entry in `analyzeDirectory`, aborts the
second analyze variant, yields no dependencies, and a parse failure only
appends a warning. -/
theorem claim_C1_amended_witness :
    analyzeDirectory 0 wBadRead "proj" = AResult.errR "proj" (JNum.num 0) ∧
    (analyzeCmd2 0 wBadRead).2 = Except.error () ∧
    analyzeDependencies dirBadRead = [] ∧
    ImportsChart.processFile ([], []) (ImpFile.mk "c.js" (Except.ok (Except.error ()))) =
      Except.ok ([], ["Warning: Could not parse " ++ "c.js"]) := by
  refine ⟨?_, ?_, ?_, ?_⟩
  · exact claim_C1_amended.1 0 wBadRead "proj" rfl
  · refine claim_C1_amended.2.1 0 wBadRead ["proj"] rfl ?_
    exact ⟨"proj", by simp, rfl⟩
  · exact (claim_C1_amended.2.2.1 dirBadRead).1 rfl
  · exact claim_C1_amended.2.2.2 ([], []) (ImpFile.mk "c.js" (Except.ok (Except.error ()))) rfl

theorem lookupUsage_cons (p : String × Nat) (m : List (String × Nat)) (k : String) :
    lookupUsage (p :: m) k =
      if (p.1 == k) = true then p.2 else lookupUsage m k := by
  cases hpk : (p.1 == k) <;> simp [lookupUsage, List.find?_cons, hpk]

theorem bumpUsage_cons (p : String × Nat) (m : List (String × Nat)) (dep : String) (n : Nat) :
    bumpUsage (p :: m) dep n =
      (if (p.1 == dep) = true then (p.1, p.2 + n) else p) :: bumpUsage m dep n := rfl

theorem usageInit_cons (k0 : String) (keys : List String) :
    usageInit (k0 :: keys) = (k0, 0) :: usageInit keys := rfl

theorem lookupUsage_usageInit : ∀ (keys : List String) (k : String),
    lookupUsage (usageInit keys) k = 0
  | [], _ => rfl
  | k0 :: keys, k => by
    rw [usageInit_cons, lookupUsage_cons]
    cases hpk : (k0 == k) with
    | true => simp [hpk]
    | false => simp only [hpk, Bool.false_eq_true, if_false]; exact lookupUsage_usageInit keys k

theorem any_key_bumpUsage (m : List (String × Nat)) (dep k : String) (n : Nat) :
    (bumpUsage m dep n).any (fun p => p.1 == k) = m.any (fun p => p.1 == k) := by
  unfold bumpUsage
  rw [List.any_map]
  congr 1
  funext p
  cases h : (p.1 == dep) <;> simp [Function.comp, h]

theorem lookupUsage_bump_self : ∀ (m : List (String × Nat)) (k : String) (n : Nat),
    m.any (fun p => p.1 == k) = true →
    lookupUsage (bumpUsage m k n) k = lookupUsage m k + n
  | [], k, n, h => by simp at h
  | p :: m, k, n, h => by
    rw [bumpUsage_cons]
    cases hpk : (p.1 == k) with
    | true =>
      rw [if_pos rfl, lookupUsage_cons, lookupUsage_cons]
      simp [hpk]
    | false =>
      rw [if_neg (by simp), lookupUsage_cons, lookupUsage_cons]
      simp only [hpk, Bool.false_eq_true, if_false]
      have hm : m.any (fun p => p.1 == k) = true := by
        rcases List.any_eq_true.mp h with ⟨q, hq, hqt⟩
        rcases List.mem_cons.mp hq with rfl | hq2
        · exact absurd hqt (by simp [hpk])
        · exact List.any_eq_true.mpr ⟨q, hq2, hqt⟩
      exact lookupUsage_bump_self m k n hm

theorem lookupUsage_bump_other : ∀ (m : List (String × Nat)) (dep k : String) (n : Nat),
    k ≠ dep → lookupUsage (bumpUsage m dep n) k = lookupUsage m k
  | [], _, _, _, _ => rfl
  | p :: m, dep, k, n, hne => by
    rw [bumpUsage_cons]
    cases hpd : (p.1 == dep) with
    | true =>
      have hp1 : p.1 = dep := by simpa using hpd
      have hpk : (p.1 == k) = false := by
        subst hp1
        simpa using fun hc => hne hc.symm
      rw [if_pos rfl, lookupUsage_cons, lookupUsage_cons]
      simp only [hpk, Bool.false_eq_true, if_false]
      exact lookupUsage_bump_other m dep k n hne
    | false =>
      rw [if_neg (by simp), lookupUsage_cons, lookupUsage_cons]
      cases hpk : (p.1 == k) with
      | true => simp [hpk]
      | false =>
        simp only [hpk, Bool.false_eq_true, if_false]
        exact lookupUsage_bump_other m dep k n hne

theorem any_key_countFileDeps : ∀ (deps : List String) (c : String)
    (m : List (String × Nat)) (k : String),
    (countFileDeps deps c m).any (fun p => p.1 == k) = m.any (fun p => p.1 == k)
  | [], _, _, _ => rfl
  | d :: deps, c, m, k => by
    have hstep : countFileDeps (d :: deps) c m =
        countFileDeps deps c (bumpUsage m d (countRequire d c + countFrom d c)) := rfl
    rw [hstep, any_key_countFileDeps deps c _ k, any_key_bumpUsage]

theorem lookupUsage_countFileDeps : ∀ (deps : List String) (c : String)
    (m : List (String × Nat)) (k : String),
    deps.Nodup → m.any (fun p => p.1 == k) = true →
    lookupUsage (countFileDeps deps c m) k =
      lookupUsage m k + (if k ∈ deps then countRequire k c + countFrom k c else 0)
  | [], c, m, k, _, _ => by simp [countFileDeps]
  | d :: deps, c, m, k, hnd, hmem => by
    have hstep : countFileDeps (d :: deps) c m =
        countFileDeps deps c (bumpUsage m d (countRequire d c + countFrom d c)) := rfl
    rcases List.nodup_cons.mp hnd with ⟨hdnot, hnd2⟩
    by_cases hk : k = d
    · subst hk
      rw [hstep, lookupUsage_countFileDeps deps c _ k hnd2
        (by rw [any_key_bumpUsage]; exact hmem)]
      rw [lookupUsage_bump_self m k _ hmem]
      simp [hdnot]
    · rw [hstep, lookupUsage_countFileDeps deps c _ k hnd2
        (by rw [any_key_bumpUsage]; exact hmem)]
      rw [lookupUsage_bump_other m d k _ hk]
      simp only [List.mem_cons, hk, false_or]

theorem lookupUsage_scanFiles : ∀ (keys : List String) (fs : List SrcFile)
    (m u : List (String × Nat)) (k : String),
    keys.Nodup → m.any (fun p => p.1 == k) = true →
    scanFiles keys fs m = Except.ok u →
    lookupUsage u k =
      lookupUsage m k + (if k ∈ keys then (fs.map (fileMatches k)).sum else 0)
  | keys, [], m, u, k, _, _, h => by
    cases h
    simp
  | keys, f :: fs, m, u, k, hnd, hmem, h => by
    cases hc : f.content with
    | error e => rw [scanFiles, hc] at h; cases h
    | ok content =>
      rw [scanFiles, hc] at h
      have ih := lookupUsage_scanFiles keys fs (countFileDeps keys content m) u k hnd
        (by rw [any_key_countFileDeps]; exact hmem) h
      rw [ih, lookupUsage_countFileDeps keys content m k hnd hmem]
      have hfm : fileMatches k f = countRequire k content + countFrom k content := by
        simp [fileMatches, hc]
      rw [List.map_cons, List.sum_cons, hfm]
      by_cases hkk : k ∈ keys
      · simp only [hkk, if_true]
        ring
      · simp [hkk]

theorem any_key_of_mem {keys : List String} {k : String} (h : k ∈ keys) :
    (usageInit keys).any (fun p => p.1 == k) = true := by
  refine List.any_eq_true.mpr ⟨(k, 0), ?_, by simp⟩
  exact List.mem_map.mpr ⟨k, h, rfl⟩

theorem keys_objInsert_map (acc : List (String × String)) (kv : String × String) :
    (objInsert acc kv).map (fun p => p.1) =
      if acc.any (fun p => p.1 == kv.1) then acc.map (fun p => p.1)
      else acc.map (fun p => p.1) ++ [kv.1] := by
  unfold objInsert
  by_cases h : acc.any (fun p => p.1 == kv.1) = true
  · rw [if_pos h, if_pos h, List.map_map]
    have hfun : ((fun p : String × String => p.1) ∘
        fun p : String × String => if p.1 == kv.1 then (p.1, kv.2) else p) =
        fun p : String × String => p.1 := by
      funext p
      by_cases hp : (p.1 == kv.1) = true <;> simp [Function.comp, hp]
    rw [hfun]
  · rw [if_neg h, if_neg h, List.map_append]
    rfl

theorem objFE_keys_nodup_aux : ∀ (l acc : List (String × String)),
    ((acc.map (fun p => p.1)).Nodup) →
    ((l.foldl objInsert acc).map (fun p => p.1)).Nodup
  | [], _, h => h
  | kv :: l, acc, h => by
    refine objFE_keys_nodup_aux l (objInsert acc kv) ?_
    rw [keys_objInsert_map]
    by_cases ha : acc.any (fun p => p.1 == kv.1) = true
    · rw [if_pos ha]; exact h
    · rw [if_neg ha]
      have hnot : kv.1 ∉ acc.map (fun p => p.1) := by
        intro hmem
        rcases List.mem_map.mp hmem with ⟨p, hp, hfst⟩
        exact ha (List.any_eq_true.mpr ⟨p, hp, by simp [hfst]⟩)
      refine List.Nodup.append h (List.nodup_singleton _) ?_
      intro a ha2 hb
      rcases List.mem_singleton.mp hb with rfl
      exact hnot ha2

theorem objFromEntries_keys_nodup (l : List (String × String)) :
    ((objFromEntries l).map (fun p => p.1)).Nodup :=
  objFE_keys_nodup_aux l [] (by simp)

theorem scanFiles_ok (keys : List String) : ∀ (fs : List SrcFile) (m : List (String × Nat)),
    (∀ f ∈ fs, ∃ c, f.content = Except.ok c) →
    ∃ u, scanFiles keys fs m = Except.ok u
  | [], m, _ => ⟨m, rfl⟩
  | f :: fs, m, h => by
    rcases h f (List.mem_cons_self f fs) with ⟨c, hc⟩
    simp only [scanFiles, hc]
    exact scanFiles_ok keys fs _ (fun g hg => h g (List.mem_cons_of_mem f hg))

/-- Claim C2: for a directory with a parseable `package.json`, every entry
`analyzeDependencies` reports belongs to a declared dependency, and its
usage count is exactly the number of `require('dep')`/`require('dep/...')`
matches plus `from 'dep'`/`from 'dep/...'` matches summed over all globbed
source files of the directory. -/
theorem claim_C2_usage_counts (d : Dir) (pj : PkgJson)
    (hpkg : d.pkgJson = some (Except.ok pj)) :
    ∀ e ∈ analyzeDependencies d,
      (∃ kv ∈ objFromEntries (pj.dependencies ++ pj.devDependencies), e.name = kv.1) ∧
      e.count = totalMatches d e.name := by
  intro e he
  simp only [analyzeDependencies, hpkg] at he
  cases hscan : scanFiles
      ((objFromEntries (pj.dependencies ++ pj.devDependencies)).map fun kv => kv.1)
      d.depFiles
      (usageInit ((objFromEntries (pj.dependencies ++ pj.devDependencies)).map fun kv => kv.1))
      with
  | error err => rw [hscan] at he; cases he
  | ok u =>
    rw [hscan] at he
    have he2 := (jsSortBy_perm depCountLe _).mem_iff.mp he
    have he3 := List.mem_filter.mp he2
    rcases List.mem_map.mp he3.1 with ⟨kv, hkv, hekv⟩
    subst hekv
    have hkmem : kv.1 ∈ (objFromEntries (pj.dependencies ++ pj.devDependencies)).map
        (fun p : String × String => p.1) := List.mem_map.mpr ⟨kv, hkv, rfl⟩
    refine ⟨⟨kv, hkv, rfl⟩, ?_⟩
    have hlk := lookupUsage_scanFiles _ d.depFiles _ u kv.1
      (objFromEntries_keys_nodup (pj.dependencies ++ pj.devDependencies))
      (any_key_of_mem hkmem) hscan
    rw [lookupUsage_usageInit, if_pos hkmem] at hlk
    simp only [totalMatches]
    simpa using hlk

/-- Witness for C2 at a concrete input: `lodash`, declared as `^1.0.0` and
used once via `require` and once via `from`, is reported with count 2. -/
theorem claim_C2_usage_counts_witness :
    (∃ kv ∈ objFromEntries (pjLodash.dependencies ++ pjLodash.devDependencies),
      (DepEntry.mk "lodash" "1.0.0" 2).name = kv.1) ∧
    (DepEntry.mk "lodash" "1.0.0" 2).count =
      totalMatches dirLodash (DepEntry.mk "lodash" "1.0.0" 2).name :=
  claim_C2_usage_counts dirLodash pjLodash rfl (DepEntry.mk "lodash" "1.0.0" 2) (by decide)

theorem analyzeDependencies_pairwise (d : Dir) :
    (analyzeDependencies d).Pairwise (fun a b => b.count ≤ a.count) := by
  have hsorted : ∀ l : List DepEntry,
      (jsSortBy depCountLe l).Pairwise (fun a b => b.count ≤ a.count) := by
    intro l
    refine List.Pairwise.imp ?_
      (jsSortBy_pairwise depCountLe (fun _ => True)
        (fun a b _ _ => by
          simp only [depCountLe, decide_eq_true_eq]
          omega)
        (fun a b c _ _ _ hab hbc => by
          simp only [depCountLe, decide_eq_true_eq] at hab hbc ⊢
          omega)
        l (fun _ _ => trivial))
    intro a b hab
    simp only [depCountLe, decide_eq_true_eq] at hab
    omega
  cases hp : d.pkgJson with
  | none => simp [analyzeDependencies, hp]
  | some r =>
    cases r with
    | error e => simp [analyzeDependencies, hp]
    | ok pj =>
      simp only [analyzeDependencies, hp]
      cases hscan : scanFiles
          ((objFromEntries (pj.dependencies ++ pj.devDependencies)).map fun kv => kv.1)
          d.depFiles
          (usageInit ((objFromEntries (pj.dependencies ++ pj.devDependencies)).map fun kv => kv.1))
          with
      | error err => exact List.Pairwise.nil
      | ok u => exact hsorted _

/-- Claim C10: when the manifest parses and every globbed file is readable,
`analyzeDependencies` returns exactly the declared dependencies whose
computed usage count is strictly positive — each with its `^`/`~`-stripped
version and its total match count — sorted in non-increasing order of
count. -/
theorem claim_C10_result_exact (d : Dir) (pj : PkgJson)
    (hpkg : d.pkgJson = some (Except.ok pj))
    (hreads : ∀ f ∈ d.depFiles, ∃ c, f.content = Except.ok c) :
    (∀ e, e ∈ analyzeDependencies d ↔
      ∃ kv ∈ objFromEntries (pj.dependencies ++ pj.devDependencies),
        e = DepEntry.mk kv.1 (stripVersionMarks kv.2) (totalMatches d kv.1) ∧
        0 < totalMatches d kv.1) ∧
    (analyzeDependencies d).Pairwise (fun a b => b.count ≤ a.count) := by
  refine ⟨?_, analyzeDependencies_pairwise d⟩
  intro e
  rcases scanFiles_ok
      ((objFromEntries (pj.dependencies ++ pj.devDependencies)).map fun kv => kv.1)
      d.depFiles
      (usageInit ((objFromEntries (pj.dependencies ++ pj.devDependencies)).map fun kv => kv.1))
      hreads with ⟨u, hscan⟩
  have hlk : ∀ kv : String × String,
      kv ∈ objFromEntries (pj.dependencies ++ pj.devDependencies) →
      lookupUsage u kv.1 = totalMatches d kv.1 := by
    intro kv hkv
    have hkmem : kv.1 ∈ (objFromEntries (pj.dependencies ++ pj.devDependencies)).map
        (fun p : String × String => p.1) := List.mem_map.mpr ⟨kv, hkv, rfl⟩
    have hl := lookupUsage_scanFiles _ d.depFiles _ u kv.1
      (objFromEntries_keys_nodup (pj.dependencies ++ pj.devDependencies))
      (any_key_of_mem hkmem) hscan
    rw [lookupUsage_usageInit, if_pos hkmem] at hl
    simpa [totalMatches] using hl
  constructor
  · intro he
    simp only [analyzeDependencies, hpkg] at he
    rw [hscan] at he
    have he2 := (jsSortBy_perm depCountLe _).mem_iff.mp he
    have he3 := List.mem_filter.mp he2
    rcases List.mem_map.mp he3.1 with ⟨kv, hkv, hekv⟩
    have hcount := he3.2
    subst hekv
    simp only [decide_eq_true_eq] at hcount
    rw [hlk kv hkv] at hcount ⊢
    exact ⟨kv, hkv, rfl, hcount⟩
  · rintro ⟨kv, hkv, rfl, hpos⟩
    simp only [analyzeDependencies, hpkg]
    rw [hscan]
    refine (jsSortBy_perm depCountLe _).mem_iff.mpr ?_
    refine List.mem_filter.mpr ⟨?_, ?_⟩
    · refine List.mem_map.mpr ⟨kv, hkv, ?_⟩
      rw [hlk kv hkv]
    · simp only [decide_eq_true_eq]
      exact hpos

/-- Witness for C10 at a concrete input: the lodash project reports exactly
`[{ name := lodash, version := 1.0.0, count := 2 }]`. -/
theorem claim_C10_result_exact_witness :
    (DepEntry.mk "lodash" "1.0.0" 2 ∈ analyzeDependencies dirLodash ↔
      ∃ kv ∈ objFromEntries (pjLodash.dependencies ++ pjLodash.devDependencies),
        DepEntry.mk "lodash" "1.0.0" 2 =
          DepEntry.mk kv.1 (stripVersionMarks kv.2) (totalMatches dirLodash kv.1) ∧
        0 < totalMatches dirLodash kv.1) ∧
    (analyzeDependencies dirLodash).Pairwise (fun a b => b.count ≤ a.count) :=
  ⟨(claim_C10_result_exact dirLodash pjLodash rfl
      (by
        intro f hf
        simp only [dirLodash, List.mem_cons, List.not_mem_nil, or_false] at hf
        rcases hf with rfl | rfl
        · exact ⟨_, rfl⟩
        · exact ⟨_, rfl⟩)).1 (DepEntry.mk "lodash" "1.0.0" 2),
    (claim_C10_result_exact dirLodash pjLodash rfl
      (by
        intro f hf
        simp only [dirLodash, List.mem_cons, List.not_mem_nil, or_false] at hf
        rcases hf with rfl | rfl
        · exact ⟨_, rfl⟩
        · exact ⟨_, rfl⟩)).2⟩

/-- Counterexample to C5 as stated: with one missing and one accessible
stored directory, the displayed list of the first analyze variant is
`[score 0, score NaN]` — the accessible directory's score is NaN (see C8),
the comparator treats NaN as 0 and moves nothing, and `0 >= NaN` is false,
so the adjacent displayed entries are not in non-increasing score order.
(The second analyze variant does not sort the per-directory results at
all.) -/
theorem claim_C5_counterexample :
    (analyzeCmd1 0 wMixed).2 =
      Except.ok [AResult.errR "bad" (JNum.num 0),
        AResult.okR "good" 0 (0 / (1024 * 1024)) [] [] JNum.nan] ∧
    ¬ ([AResult.errR "bad" (JNum.num 0),
        AResult.okR "good" 0 (0 / (1024 * 1024)) [] [] JNum.nan].Pairwise
        (fun a b => jge a.score b.score = true)) := by
  constructor
  · rfl
  · intro h
    have := (List.pairwise_cons.mp h).1 _ (List.mem_cons_self _ _)
    simp [jge, AResult.score] at this

theorem analyzeCmd2Loop_perDir (now : ℚ) (w : World) :
    ∀ (dirs : List String) (t : TallyMap) (ti : ℚ) (acc : List AResult)
      (tf : TallyMap) (tif : ℚ) (pd : List AResult),
      analyzeCmd2Loop now w dirs t ti acc = Except.ok (tf, tif, pd) →
      pd = acc ++ dirs.map (analyzeDirectory now w)
  | [], t, ti, acc, tf, tif, pd, h => by
    cases h
    simp
  | dp :: rest, t, ti, acc, tf, tif, pd, h => by
    simp only [analyzeCmd2Loop] at h
    cases himp : ImportsChart.analyzeImports (w.find dp) with
    | error e => rw [himp] at h; cases h
    | ok v =>
      rw [himp] at h
      rw [analyzeCmd2Loop_perDir now w rest _ _ _ _ _ _ h]
      simp

/-- Claim C5 as amended: the first analyze variant sorts the results with
the stable comparator `b.score - a.score`, so whenever every displayed
score is an actual number the displayed list is in non-increasing score
order; NaN scores (which successful import analysis always produces) void
that guarantee, and the second analyze variant prints the per-directory
results in stored order without ranking them. -/
theorem claim_C5_amended :
    (∀ (now : ℚ) (w : World) (rs : List AResult),
      (analyzeCmd1 now w).2 = Except.ok rs →
      (∀ r ∈ rs, ∃ q, r.score = JNum.num q) →
      rs.Pairwise (fun a b => jge a.score b.score = true)) ∧
    (∀ (now : ℚ) (w : World) (dirs : List String) (out : Cmd2Out),
      getDirectoriesJs w.configFile = Except.ok dirs →
      (analyzeCmd2 now w).2 = Except.ok out →
      out.perDir = dirs.map (analyzeDirectory now w)) := by
  constructor
  · intro now w rs hrs hnum
    cases hdirs : getDirectoriesJs w.configFile with
    | error e => simp [analyzeCmd1, hdirs, Except.map] at hrs
    | ok dirs =>
      simp only [analyzeCmd1, hdirs, Except.map, Except.ok.injEq] at hrs
      subst hrs
      have hpw := jsSortBy_pairwise resultScoreLe (fun r => ∃ q, r.score = JNum.num q)
        (by
          rintro a b ⟨qa, hqa⟩ ⟨qb, hqb⟩
          simp only [resultScoreLe, hqa, hqb, jsub, jleZero, decide_eq_true_eq]
          rcases le_total qb qa with h | h
          · left; linarith
          · right; linarith)
        (by
          rintro a b c ⟨qa, hqa⟩ ⟨qb, hqb⟩ ⟨qc, hqc⟩ hab hbc
          simp only [resultScoreLe, hqa, hqb, hqc, jsub, jleZero, decide_eq_true_eq]
            at hab hbc ⊢
          linarith)
        (dirs.map (analyzeDirectory now w))
        (fun r hr => hnum r ((jsSortBy_perm resultScoreLe _).mem_iff.mpr hr))
      refine List.Pairwise.imp_of_mem ?_ hpw
      intro a b ha hb hab
      rcases hnum a ha with ⟨qa, hqa⟩
      rcases hnum b hb with ⟨qb, hqb⟩
      simp only [resultScoreLe, hqa, hqb, jsub, jleZero, decide_eq_true_eq] at hab
      simp only [jge, hqa, hqb, decide_eq_true_eq]
      linarith
  · intro now w dirs out hdirs hout
    simp only [analyzeCmd2, hdirs] at hout
    cases hloop : analyzeCmd2Loop now w dirs [] 0 [] with
    | error e => rw [hloop] at hout; cases hout
    | ok trip =>
      obtain ⟨tf, tif, pd⟩ := trip
      rw [hloop] at hout
      cases hout
      simpa using analyzeCmd2Loop_perDir now w dirs [] 0 [] tf tif pd hloop

/-- Witness for the amended C5 at a concrete input: with one missing
stored directory the single score is the number 0 and the displayed list
is sorted; the second variant displays the result in stored order. -/
theorem claim_C5_amended_witness :
    ([AResult.errR "a" (JNum.num 0)].Pairwise
      (fun a b => jge a.score b.score = true)) ∧
    (Cmd2Out.mk [AResult.errR "a" (JNum.num 0)] [] [] 0).perDir =
      ["a"].map (analyzeDirectory 0 wOneMissing) := by
  constructor
  · refine claim_C5_amended.1 0 wOneMissing [AResult.errR "a" (JNum.num 0)] rfl ?_
    intro r hr
    simp only [List.mem_cons, List.not_mem_nil, or_false] at hr
    rcases hr with rfl
    exact ⟨0, rfl⟩
  · exact claim_C5_amended.2 0 wOneMissing ["a"]
      (Cmd2Out.mk [AResult.errR "a" (JNum.num 0)] [] [] 0) rfl rfl

theorem lookupTally_cons (p : String × Usage) (t : TallyMap) (k : String) :
    lookupTally (p :: t) k =
      if (p.1 == k) = true then some p.2 else lookupTally t k := by
  cases hpk : (p.1 == k) <;> simp [lookupTally, List.find?_cons, hpk]

theorem lookupTally_eq_none_of_any_false : ∀ (t : TallyMap) (k : String),
    t.any (fun p => p.1 == k) = false → lookupTally t k = none
  | [], _, _ => rfl
  | p :: t, k, h => by
    have h1 : (p.1 == k) = false := by
      cases h2 : (p.1 == k)
      · rfl
      · rw [List.any_cons, h2] at h; simp at h
    rw [lookupTally_cons, if_neg (by simp [h1])]
    refine lookupTally_eq_none_of_any_false t k ?_
    cases hta : t.any (fun p => p.1 == k)
    · rfl
    · rw [List.any_cons, hta] at h; simp at h

theorem lookupTally_isSome_of_any : ∀ (t : TallyMap) (k : String),
    t.any (fun p => p.1 == k) = true → ∃ u, lookupTally t k = some u
  | [], k, h => by simp at h
  | p :: t, k, h => by
    cases hpk : (p.1 == k) with
    | true => exact ⟨p.2, by rw [lookupTally_cons, if_pos hpk]⟩
    | false =>
      have h2 : t.any (fun p => p.1 == k) = true := by
        rw [List.any_cons, hpk] at h
        simpa using h
      rcases lookupTally_isSome_of_any t k h2 with ⟨u, hu⟩
      exact ⟨u, by rw [lookupTally_cons, if_neg (by simp [hpk]), hu]⟩

theorem lookupTally_append_single : ∀ (t : TallyMap) (x : String × Usage) (k : String),
    lookupTally (t ++ [x]) k =
      (match lookupTally t k with
       | some u => some u
       | none => if (x.1 == k) = true then some x.2 else none)
  | [], x, k => by
    rw [List.nil_append, lookupTally_cons]
    cases hxk : (x.1 == k) <;> simp [lookupTally, hxk]
  | p :: t, x, k => by
    rw [List.cons_append, lookupTally_cons, lookupTally_cons]
    cases hpk : (p.1 == k) with
    | true => simp
    | false =>
      simp only [Bool.false_eq_true, if_false]
      exact lookupTally_append_single t x k

theorem lookupTally_tallyMap : ∀ (t : TallyMap) (e : DepEntry) (dp k : String),
    lookupTally (t.map (fun p =>
      if p.1 == e.name then
        (p.1,
          { count := p.2.count + e.count,
            versions := setAdd p.2.versions e.version,
            dirs := setAdd p.2.dirs dp })
      else p)) k =
      (if k = e.name then
        (lookupTally t k).map (fun u =>
          { count := u.count + e.count,
            versions := setAdd u.versions e.version,
            dirs := setAdd u.dirs dp })
      else lookupTally t k)
  | [], e, dp, k => by
    by_cases hk : k = e.name <;> simp [lookupTally, hk]
  | p :: t, e, dp, k => by
    have ih := lookupTally_tallyMap t e dp k
    simp only [beq_iff_eq] at ih
    by_cases hk : k = e.name
    · subst hk
      by_cases hp1 : p.1 = e.name
      · simp [List.map_cons, lookupTally_cons, hp1, ih]
      · simp [List.map_cons, lookupTally_cons, hp1, ih]
    · have hk2 : ¬ e.name = k := fun h => hk h.symm
      by_cases hp1 : p.1 = e.name
      · have hpk : ¬ p.1 = k := fun h => hk (h.symm.trans hp1)
        simp [List.map_cons, lookupTally_cons, hp1, hpk, ih, hk, hk2]
      · simp [List.map_cons, lookupTally_cons, hp1, ih, hk, hk2]

theorem lookupTally_tallyInsert (t : TallyMap) (dp : String) (e : DepEntry) (k : String) :
    lookupTally (tallyInsert t dp e) k =
      (if k = e.name then
        some (Usage.mk (((lookupTally t k).map Usage.count).getD 0 + e.count)
          (setAdd (((lookupTally t k).map Usage.versions).getD []) e.version)
          (setAdd (((lookupTally t k).map Usage.dirs).getD []) dp))
      else lookupTally t k) := by
  unfold tallyInsert
  by_cases hany : t.any (fun p => p.1 == e.name) = true
  · rw [if_pos hany, lookupTally_tallyMap]
    by_cases hk : k = e.name
    · rw [if_pos hk, if_pos hk]
      rcases lookupTally_isSome_of_any t e.name hany with ⟨u, hu⟩
      rw [hk, hu]
      rfl
    · rw [if_neg hk, if_neg hk]
  · rw [if_neg hany, lookupTally_tallyMap]
    by_cases hk : k = e.name
    · rw [if_pos hk, if_pos hk]
      have hanyf : t.any (fun p => p.1 == e.name) = false := by
        cases h2 : t.any (fun p => p.1 == e.name)
        · rfl
        · exact absurd h2 hany
      have hnone := lookupTally_eq_none_of_any_false t e.name hanyf
      rw [hk, lookupTally_append_single, hnone]
      rw [if_pos (by simp)]
      rfl
    · rw [if_neg hk, if_neg hk, lookupTally_append_single]
      have hxk : ((e.name, Usage.mk 0 [] []).1 == k) = false := by
        cases h2 : ((e.name, Usage.mk 0 [] []).1 == k)
        · rfl
        · exact absurd ((by simpa using h2 : e.name = k)).symm hk
      cases hlt : lookupTally t k
      · simp [hxk]
      · simp

theorem depNames_nodup (d : Dir) : ((analyzeDependencies d).map DepEntry.name).Nodup := by
  cases hp : d.pkgJson with
  | none => simp [analyzeDependencies, hp]
  | some r =>
    cases r with
    | error e => simp [analyzeDependencies, hp]
    | ok pj =>
      simp only [analyzeDependencies, hp]
      cases hscan : scanFiles
          ((objFromEntries (pj.dependencies ++ pj.devDependencies)).map fun kv => kv.1)
          d.depFiles
          (usageInit ((objFromEntries (pj.dependencies ++ pj.devDependencies)).map fun kv => kv.1))
          with
      | error err => simp
      | ok u =>
        have hmapped :
            (((objFromEntries (pj.dependencies ++ pj.devDependencies)).map (fun kv =>
              DepEntry.mk kv.1 (stripVersionMarks kv.2) (lookupUsage u kv.1))).map
                DepEntry.name).Nodup := by
          rw [List.map_map]
          exact objFromEntries_keys_nodup (pj.dependencies ++ pj.devDependencies)
        have hfiltered :
            ((((objFromEntries (pj.dependencies ++ pj.devDependencies)).map (fun kv =>
              DepEntry.mk kv.1 (stripVersionMarks kv.2) (lookupUsage u kv.1))).filter
                (fun e => decide (0 < e.count))).map DepEntry.name).Nodup :=
          (List.Sublist.map DepEntry.name (List.filter_sublist _)).nodup hmapped
        exact ((jsSortBy_perm depCountLe _).map DepEntry.name).nodup_iff.mpr hfiltered

theorem find?_name_eq_none {deps : List DepEntry} {k : String}
    (h : k ∉ deps.map DepEntry.name) :
    deps.find? (fun e => e.name == k) = none := by
  induction deps with
  | nil => rfl
  | cons e deps ih =>
    have hne : (e.name == k) = false := by
      cases h2 : (e.name == k)
      · rfl
      · exact absurd (List.mem_map.mpr ⟨e, List.mem_cons_self e deps, (by simpa using h2)⟩) h
    rw [List.find?_cons_of_neg _ (by simp [hne])]
    exact ih (fun hc => h (List.mem_cons_of_mem _ hc))

theorem lookupTally_foldDeps : ∀ (deps : List DepEntry) (t : TallyMap) (dp k : String),
    (deps.map DepEntry.name).Nodup →
    lookupTally (deps.foldl (fun t e => tallyInsert t dp e) t) k =
      mergeOne (lookupTally t k) (deps.find? (fun e => e.name == k)) dp
  | [], t, dp, k, _ => rfl
  | e :: deps, t, dp, k, hnd => by
    rw [List.map_cons, List.nodup_cons] at hnd
    have hstep : (e :: deps).foldl (fun t e => tallyInsert t dp e) t =
        deps.foldl (fun t e => tallyInsert t dp e) (tallyInsert t dp e) := rfl
    rw [hstep, lookupTally_foldDeps deps _ dp k hnd.2]
    by_cases hk : k = e.name
    · have hfind : deps.find? (fun e2 => e2.name == k) = none :=
        find?_name_eq_none (by rw [hk]; exact hnd.1)
      rw [hfind, List.find?_cons_of_pos _ (by simp [hk]), lookupTally_tallyInsert, if_pos hk]
      rfl
    · rw [lookupTally_tallyInsert, if_neg hk,
        List.find?_cons_of_neg _ (by simp; exact fun h => hk h.symm)]

theorem lookupTally_loop (now : ℚ) (w : World) :
    ∀ (dirs : List String) (t : TallyMap) (ti : ℚ) (acc : List AResult)
      (tf : TallyMap) (tif : ℚ) (pd : List AResult),
      analyzeCmd2Loop now w dirs t ti acc = Except.ok (tf, tif, pd) →
      ∀ k, lookupTally tf k = mergeMany (lookupTally t k) (collectReports w dirs k)
  | [], t, ti, acc, tf, tif, pd, h, k => by
    cases h
    rfl
  | dp :: rest, t, ti, acc, tf, tif, pd, h, k => by
    simp only [analyzeCmd2Loop] at h
    cases himp : ImportsChart.analyzeImports (w.find dp) with
    | error e => rw [himp] at h; cases h
    | ok v =>
      rw [himp] at h
      have ih := lookupTally_loop now w rest _ _ _ _ _ _ h k
      rw [ih, lookupTally_foldDeps _ t dp k (depNames_nodup _)]
      show mergeMany (mergeOne (lookupTally t k) (reportedDep w dp k) dp)
          (collectReports w rest k) =
        mergeMany (lookupTally t k) (collectReports w (dp :: rest) k)
      cases hrep : reportedDep w dp k with
      | none =>
        simp [collectReports, List.filterMap_cons, hrep, mergeOne]
      | some e =>
        have hcons : collectReports w (dp :: rest) k =
            (dp, e) :: collectReports w rest k := by
          simp [collectReports, List.filterMap_cons, hrep]
        rw [hcons]
        rfl

theorem mem_setAdd (l : List String) (x y : String) :
    y ∈ setAdd l x ↔ y ∈ l ∨ y = x := by
  unfold setAdd
  by_cases h : l.contains x = true
  · rw [if_pos h]
    constructor
    · exact Or.inl
    · rintro (hy | rfl)
      · exact hy
      · exact (by simpa using h : y ∈ l)
  · rw [if_neg h]
    simp

theorem nodup_setAdd (l : List String) (x : String) (h : l.Nodup) :
    (setAdd l x).Nodup := by
  unfold setAdd
  by_cases hc : l.contains x = true
  · rw [if_pos hc]; exact h
  · rw [if_neg hc]
    refine List.Nodup.append h (List.nodup_singleton _) ?_
    intro a ha hb
    rcases List.mem_singleton.mp hb with rfl
    exact hc (by simpa using ha)

theorem mem_collectSet (f : String × DepEntry → String) :
    ∀ (l : List (String × DepEntry)) (init : List String) (y : String),
      y ∈ collectSet f l init ↔ y ∈ init ∨ y ∈ l.map f
  | [], init, y => by simp [collectSet]
  | p :: l, init, y => by
    have ih := mem_collectSet f l (setAdd init (f p)) y
    have hstep : collectSet f (p :: l) init = collectSet f l (setAdd init (f p)) := rfl
    rw [hstep, ih, mem_setAdd]
    simp only [List.map_cons, List.mem_cons]
    tauto

theorem nodup_collectSet (f : String × DepEntry → String) :
    ∀ (l : List (String × DepEntry)) (init : List String), init.Nodup →
      (collectSet f l init).Nodup
  | [], _, h => h
  | p :: l, init, h =>
    nodup_collectSet f l (setAdd init (f p)) (nodup_setAdd init (f p) h)

theorem sumCounts_cons (p : String × DepEntry) (l : List (String × DepEntry)) :
    sumCounts (p :: l) = p.2.count + sumCounts l := by
  simp [sumCounts]

theorem mergeMany_char : ∀ (l : List (String × DepEntry)) (o : Option Usage),
    mergeMany o l =
      (if l = [] then o
       else some (Usage.mk (((o.map Usage.count).getD 0) + sumCounts l)
         (collectSet (fun p => p.2.version) l ((o.map Usage.versions).getD []))
         (collectSet (fun p => p.1) l ((o.map Usage.dirs).getD []))))
  | [], o => by simp [mergeMany]
  | p :: l, o => by
    have hstep : mergeMany o (p :: l) = mergeMany (mergeOne o (some p.2) p.1) l := rfl
    rw [hstep, mergeMany_char l _]
    by_cases hl : l = []
    · subst hl
      simp [mergeOne, collectSet, sumCounts]
    · rw [if_neg hl, if_neg (by simp)]
      have hcount : ((mergeOne o (some p.2) p.1).map Usage.count).getD 0 =
          ((o.map Usage.count).getD 0) + p.2.count := rfl
      have hvers : ((mergeOne o (some p.2) p.1).map Usage.versions).getD [] =
          setAdd ((o.map Usage.versions).getD []) p.2.version := rfl
      have hdirs : ((mergeOne o (some p.2) p.1).map Usage.dirs).getD [] =
          setAdd ((o.map Usage.dirs).getD []) p.1 := rfl
      rw [hcount, hvers, hdirs, sumCounts_cons, Nat.add_assoc]
      rfl

/-- Claim C3: after the second analyze variant succeeds, the in-memory
tally maps every dependency name reported by some stored directory to the
sum of its per-directory usage counts, the insertion-ordered set of
distinct version strings reported for it, and the insertion-ordered set of
the directories that reported it (and maps unreported names to nothing);
the final ranking lists tally entries in non-increasing order of the
summed count. -/
theorem claim_C3_tally (now : ℚ) (w : World) (dirs : List String) (out : Cmd2Out)
    (hdirs : getDirectoriesJs w.configFile = Except.ok dirs)
    (hrun : (analyzeCmd2 now w).2 = Except.ok out) :
    (∀ k, lookupTally out.tally k =
      (if collectReports w dirs k = [] then none
       else some (Usage.mk (sumCounts (collectReports w dirs k))
         (collectSet (fun p => p.2.version) (collectReports w dirs k) [])
         (collectSet (fun p => p.1) (collectReports w dirs k) [])))) ∧
    (∀ k u, lookupTally out.tally k = some u →
      u.versions.Nodup ∧ u.dirs.Nodup ∧
      (∀ v, v ∈ u.versions ↔ v ∈ (collectReports w dirs k).map (fun p => p.2.version)) ∧
      (∀ dp, dp ∈ u.dirs ↔ dp ∈ (collectReports w dirs k).map (fun p => p.1))) ∧
    out.ranked.Pairwise (fun a b => b.2.count ≤ a.2.count) := by
  simp only [analyzeCmd2, hdirs] at hrun
  cases hloop : analyzeCmd2Loop now w dirs [] 0 [] with
  | error e => rw [hloop] at hrun; cases hrun
  | ok trip =>
    obtain ⟨tf, tif, pd⟩ := trip
    rw [hloop] at hrun
    cases hrun
    have htally : ∀ k, lookupTally tf k =
        (if collectReports w dirs k = [] then none
         else some (Usage.mk (sumCounts (collectReports w dirs k))
           (collectSet (fun p => p.2.version) (collectReports w dirs k) [])
           (collectSet (fun p => p.1) (collectReports w dirs k) []))) := by
      intro k
      have hm := lookupTally_loop now w dirs [] 0 [] tf tif pd hloop k
      have hm2 : lookupTally tf k = mergeMany none (collectReports w dirs k) := hm
      rw [hm2, mergeMany_char]
      by_cases hl : collectReports w dirs k = []
      · rw [if_pos hl, if_pos hl]
      · rw [if_neg hl, if_neg hl]
        simp
    refine ⟨htally, ?_, ?_⟩
    · intro k u hu
      rw [htally k] at hu
      by_cases hl : collectReports w dirs k = []
      · rw [if_pos hl] at hu; cases hu
      · rw [if_neg hl] at hu
        cases hu
        refine ⟨nodup_collectSet _ _ [] List.nodup_nil,
          nodup_collectSet _ _ [] List.nodup_nil, ?_, ?_⟩
        · intro v
          rw [mem_collectSet]
          simp
        · intro dp
          rw [mem_collectSet]
          simp
    · refine List.Pairwise.imp ?_
        (jsSortBy_pairwise tallyCountLe (fun _ => True)
          (fun a b _ _ => by
            simp only [tallyCountLe, decide_eq_true_eq]
            omega)
          (fun a b c _ _ _ hab hbc => by
            simp only [tallyCountLe, decide_eq_true_eq] at hab hbc ⊢
            omega)
          tf (fun _ _ => trivial))
      intro a b hab
      simp only [tallyCountLe, decide_eq_true_eq] at hab
      omega

/-- Witness for C3 at a concrete input: the lodash project tallies
`lodash` with count 2, versions `[1.0.0]`, dirs `[p]`, and the singleton
ranking is trivially sorted. -/
theorem claim_C3_tally_witness :
    (lookupTally outLodash.tally "lodash" =
      (if collectReports wLodash ["p"] "lodash" = [] then none
       else some (Usage.mk (sumCounts (collectReports wLodash ["p"] "lodash"))
         (collectSet (fun p => p.2.version) (collectReports wLodash ["p"] "lodash") [])
         (collectSet (fun p => p.1) (collectReports wLodash ["p"] "lodash") [])))) ∧
    outLodash.ranked.Pairwise (fun a b => b.2.count ≤ a.2.count) :=
  ⟨(claim_C3_tally 0 wLodash ["p"] outLodash rfl rfl).1 "lodash",
   (claim_C3_tally 0 wLodash ["p"] outLodash rfl rfl).2.2⟩
